import Mathlib

/-!
Verification of the OpenCut media-ingestion core against its specification.

The development shallowly embeds three modules:
* `apps/web/src/lib/ffmpeg-loader.ts` — the memoized lazy loader for the
  heavy decoding engine (`loadFFmpeg`, `preloadFFmpeg`);
* `apps/web/src/stores/media-store.ts` — the media-item store
  (`addMediaItem`, `removeMediaItem`, `loadProjectMedia`,
  `clearProjectMedia`, `clearAllMedia`, `cleanupObjectUrls`);
* `apps/web/src/lib/media-processing.ts` — the batch ingestion pipeline
  (`processMediaFiles`).

External effects are made explicit: `URL.createObjectURL` /
`URL.revokeObjectURL`, toast diagnostics, the event-loop yield and the
progress callback become entries of an event trace; the outcomes of
external asynchronous calls (image decoding, the FFmpeg engine, media
metadata, the persistence layer) are oracle parameters attached to each
input, so a run of a definition replays exactly the control flow the
TypeScript performs for those outcomes.  JavaScript numbers standing for
durations and seek positions are modelled by `Rat`.
-/

/-- Boolean string-prefix test, modelling JavaScript
`String.prototype.startsWith`. -/
def strStartsWith (s p : String) : Bool :=
  p.data.isPrefixOf s.data

/-- Media kinds, from `MediaType` in `media-store.ts`. -/
inductive MediaType where
  | image
  | video
  | audio
deriving DecidableEq, Repr

/-- `getFileType` from `media-store.ts`, on the file's declared MIME type:
`image/*`, `video/*` and `audio/*` map to their kinds, anything else to
`none` (the source's `null`). -/
def getFileType (contentType : String) : Option MediaType :=
  if strStartsWith contentType "image/" then some MediaType.image
  else if strStartsWith contentType "video/" then some MediaType.video
  else if strStartsWith contentType "audio/" then some MediaType.audio
  else none

/-! ## Lazy engine loader (`ffmpeg-loader.ts`)

The module-level mutable `ffmpegPromise` and the count of dynamic
`import` evaluations (the "load-count spy" of the specification) form the
loader state.  A load operation is identified by a `Nat`; the memoized
`ffmpegPromise` holds the identifier of the operation it caches. -/

/-- State of the loader module: the memoized promise (if any) and how many
times the underlying dynamic import actually ran. -/
structure LoaderState where
  ffmpegPromise : Option Nat
  loadCount : Nat
deriving DecidableEq, Repr

/-- The loader module's state at process start: no promise, no load. -/
def initLoader : LoaderState := { ffmpegPromise := none, loadCount := 0 }

/-- `loadFFmpeg` from `ffmpeg-loader.ts`: if `ffmpegPromise` is unset, start
the dynamic import (a fresh load operation) and memoize it; in every case
return the memoized operation. -/
def loadFFmpeg (s : LoaderState) : Nat × LoaderState :=
  match s.ffmpegPromise with
  | some p => (p, s)
  | none =>
      (s.loadCount,
       { ffmpegPromise := some s.loadCount, loadCount := s.loadCount + 1 })

/-- How an invocation of the loader arises: a direct call (e.g. from the
pipeline) or the callback that `preloadFFmpeg` scheduled. -/
inductive CallKind where
  | direct
  | preloadCb
deriving DecidableEq, Repr

/-- Run a sequence of loader invocations, direct or preload-scheduled; both
kinds execute `loadFFmpeg` (the preload callback is literally
`() => loadFFmpeg()`).  Returns the load operation observed by each
invocation, in order, with the final loader state. -/
def runCalls : List CallKind → LoaderState → List Nat × LoaderState
  | [], s => ([], s)
  | _ :: rest, s =>
      let r := loadFFmpeg s
      let rs := runCalls rest r.2
      (r.1 :: rs.1, rs.2)

/-- What `preloadFFmpeg` schedules: `requestIdleCallback` with a 5000 ms
timeout when available, otherwise a 2000 ms `setTimeout`. -/
inductive ScheduleMode where
  | idleCallback (timeoutMs : Nat)
  | timer (delayMs : Nat)
deriving DecidableEq, Repr

/-- `preloadFFmpeg` from `ffmpeg-loader.ts`: picks the scheduling mechanism
from the host environment and schedules the load callback; it touches no
loader state itself and returns `()` to its caller at once. -/
def preloadFFmpeg (hasWindow hasIdleCb : Bool) (s : LoaderState) :
    Unit × LoaderState × ScheduleMode :=
  if hasWindow && hasIdleCb then ((), s, ScheduleMode.idleCallback 5000)
  else ((), s, ScheduleMode.timer 2000)

/-- Running the callback `preloadFFmpeg` scheduled: it calls `loadFFmpeg`
and discards the resulting promise, so the callback itself returns `()`
whatever later becomes of the load. -/
def runPreloadCallback (s : LoaderState) : Unit × LoaderState :=
  let r := loadFFmpeg s
  ((), r.2)

/-- Settlement oracle for load operations: `env p` tells whether load
operation `p` eventually succeeds. -/
def awaitLoad (env : Nat → Bool) (p : Nat) : Except String Unit :=
  if env p then Except.ok () else Except.error "ffmpeg load failed"

/-- A direct caller of `loadFFmpeg` that awaits the returned promise:
the settlement of the memoized operation is surfaced to it. -/
def loadFFmpegAwaited (env : Nat → Bool) (s : LoaderState) :
    Except String Unit × LoaderState :=
  let r := loadFFmpeg s
  (awaitLoad env r.1, r.2)

/-! ## Media-item store (`media-store.ts`)

The zustand store's state is the pair `(mediaItems, isLoading)`.  Each
operation is a function of that state together with the outcomes of the
external calls it makes (the generated UUID, success of the persistence
call); it returns the successive states the source's `set` calls install
and the list of object URLs passed to `URL.revokeObjectURL`, in order. -/

/-- A media entity held by the store, from `MediaItem` in `media-store.ts`.
Optional TypeScript fields become `Option`; the opaque `File` payload is
represented by an identifying string. -/
structure MediaItem where
  id : String
  name : String
  type : MediaType
  file : String := ""
  url : Option String := none
  thumbnailUrl : Option String := none
  duration : Option Rat := none
  width : Option Nat := none
  height : Option Nat := none
  fps : Option Rat := none
  content : Option String := none
  fontSize : Option Nat := none
  fontFamily : Option String := none
  color : Option String := none
  backgroundColor : Option String := none
  textAlign : Option String := none
deriving DecidableEq, Repr

/-- An entity before identity assignment: `Omit<MediaItem, "id">`, which is
also the pipeline's `ProcessedMediaItem`. -/
structure DraftMediaItem where
  name : String
  type : MediaType
  file : String := ""
  url : Option String := none
  thumbnailUrl : Option String := none
  duration : Option Rat := none
  width : Option Nat := none
  height : Option Nat := none
  fps : Option Rat := none
  content : Option String := none
  fontSize : Option Nat := none
  fontFamily : Option String := none
  color : Option String := none
  backgroundColor : Option String := none
  textAlign : Option String := none
deriving DecidableEq, Repr

/-- The spread `{ ...item, id: generateUUID() }` in `addMediaItem`. -/
def mkItem (d : DraftMediaItem) (newId : String) : MediaItem :=
  { id := newId, name := d.name, type := d.type, file := d.file,
    url := d.url, thumbnailUrl := d.thumbnailUrl, duration := d.duration,
    width := d.width, height := d.height, fps := d.fps,
    content := d.content, fontSize := d.fontSize,
    fontFamily := d.fontFamily, color := d.color,
    backgroundColor := d.backgroundColor, textAlign := d.textAlign }

/-- The guard `u && u.startsWith('blob:')` applied to an optional URL:
the URLs an item field contributes to `URL.revokeObjectURL`. -/
def revocableOf (u : Option String) : List String :=
  match u with
  | some v => if strStartsWith v "blob:" then [v] else []
  | none => []

/-- The object URLs the store revokes when it cleans up one item:
its preview `url` and its `thumbnailUrl`, each only when it is a
`blob:` URL. -/
def revokeItemUrls (it : MediaItem) : List String :=
  revocableOf it.url ++ revocableOf it.thumbnailUrl

/-- The URLs revoked by a `forEach` cleanup pass over a collection, in
iteration order. -/
def allRevocable (items : List MediaItem) : List String :=
  items.foldr (fun it acc => revokeItemUrls it ++ acc) []

/-- The store's state: the in-memory collection and the loading flag. -/
structure MediaStoreState where
  mediaItems : List MediaItem
  isLoading : Bool
deriving DecidableEq, Repr

/-- Result of `addMediaItem`: the optimistic state installed before the
persistence call, the state once the operation settles, whether the error
was re-thrown to the caller, and the URLs revoked along the way. -/
structure AddResult where
  optimistic : MediaStoreState
  settled : MediaStoreState
  failed : Bool
  revoked : List String
deriving DecidableEq, Repr

/-- `addMediaItem` from `media-store.ts`.  `newId` is the UUID
`generateUUID` produced and `saveOk` the outcome of
`storageService.saveMediaItem`: the new item is appended immediately; on
persistence failure it is filtered back out by id and the error is
re-thrown; no URL is revoked on either path. -/
def addMediaItem (s : MediaStoreState) (projectId : String)
    (item : DraftMediaItem) (newId : String) (saveOk : Bool) : AddResult :=
  let newItem := mkItem item newId
  let optimistic : MediaStoreState :=
    { s with mediaItems := s.mediaItems ++ [newItem] }
  if saveOk then
    { optimistic := optimistic, settled := optimistic,
      failed := false, revoked := [] }
  else
    { optimistic := optimistic,
      settled := { optimistic with
        mediaItems :=
          optimistic.mediaItems.filter (fun m => !(m.id == newItem.id)) },
      failed := true, revoked := [] }

/-- `removeMediaItem` from `media-store.ts`.  `deleteOk` is the outcome of
`storageService.deleteMediaItem`; its failure is only logged, so the state
does not depend on it.  Returns the new state and the revoked URLs. -/
def removeMediaItem (s : MediaStoreState) (id : String) (deleteOk : Bool) :
    MediaStoreState × List String :=
  let item := s.mediaItems.find? (fun m => m.id == id)
  let revoked :=
    match item with
    | some it => revokeItemUrls it
    | none => []
  ({ s with mediaItems := s.mediaItems.filter (fun m => !(m.id == id)) },
   revoked)

/-- `cleanupObjectUrls` from `media-store.ts`: revokes every held `blob:`
URL and performs no `set` — the collection is untouched. -/
def cleanupObjectUrls (s : MediaStoreState) : MediaStoreState × List String :=
  (s, allRevocable s.mediaItems)

/-- Result of `loadProjectMedia`: the state while the fetch from the
backing store is pending, the state once it settles, and the revoked
URLs. -/
structure LoadResult where
  duringFetch : MediaStoreState
  settled : MediaStoreState
  revoked : List String
deriving DecidableEq, Repr

/-- `loadProjectMedia` from `media-store.ts`.  `fetched` is the outcome of
`storageService.loadAllMediaItems` (`none` for a rejection): set
`isLoading`, release every held URL via `cleanupObjectUrls`, then replace
the collection with the fetched items, or with `[]` on failure. -/
def loadProjectMedia (s : MediaStoreState) (projectId : String)
    (fetched : Option (List MediaItem)) : LoadResult :=
  let s1 : MediaStoreState := { s with isLoading := true }
  let c := cleanupObjectUrls s1
  match fetched with
  | some items =>
      { duringFetch := c.1,
        settled := { mediaItems := items, isLoading := false },
        revoked := c.2 }
  | none =>
      { duringFetch := c.1,
        settled := { mediaItems := [], isLoading := false },
        revoked := c.2 }

/-- `clearProjectMedia` from `media-store.ts`: revoke every held `blob:`
URL, empty the collection; the backing-store deletion outcome `deleteOk`
is only logged. -/
def clearProjectMedia (s : MediaStoreState) (projectId : String)
    (deleteOk : Bool) : MediaStoreState × List String :=
  ({ s with mediaItems := [] }, allRevocable s.mediaItems)

/-- `clearAllMedia` from `media-store.ts`: revoke every held `blob:` URL
and empty the collection, without contacting the backing store. -/
def clearAllMedia (s : MediaStoreState) : MediaStoreState × List String :=
  ({ s with mediaItems := [] }, allRevocable s.mediaItems)

/-! ## Ingestion pipeline (`media-processing.ts`)

`processMediaFiles` walks the batch in order; per-file external calls
(`getImageDimensions`, `loadFFmpeg`/`getVideoInfo`, the engine's
`generateThumbnail`, the fallback `generateVideoThumbnail`,
`getMediaDuration`) have their outcomes recorded as oracle fields of the
input `FileSpec`, and the observable effects are accumulated in an event
trace. -/

/-- Metadata the heavy engine's `getVideoInfo` returns. -/
structure VideoInfo where
  duration : Rat
  width : Nat
  height : Nat
  fps : Rat
deriving DecidableEq, Repr

/-- One input file of a batch, together with the outcomes of the external
calls the pipeline may make for it: `imageDims` is `getImageDimensions`
(`none` when it rejects), `engineInfo` covers the engine load plus
`getVideoInfo` as a unit, `engineThumb` the engine's `generateThumbnail`,
`fbThumb` the fallback `generateVideoThumbnail` (thumbnail, width,
height), `fbDuration` the duration the fallback video element observes
(which drives its seek), and `mediaDuration` is `getMediaDuration`. -/
structure FileSpec where
  name : String
  contentType : String
  url : String
  imageDims : Option (Nat × Nat) := none
  engineInfo : Option VideoInfo := none
  engineThumb : Option String := none
  fbThumb : Option (String × Nat × Nat) := none
  fbDuration : Rat := 0
  mediaDuration : Option Rat := none
deriving DecidableEq, Repr

/-- Observable effects of the pipeline, in program order: diagnostics,
object-URL allocation and release, the event-loop yield, a progress
report, and the two thumbnail captures with their seek timestamps. -/
inductive PEvent where
  | toastError (msg : String)
  | createUrl (u : String)
  | revokeUrl (u : String)
  | yieldControl
  | progress (pct : Nat)
  | engineThumbAt (name : String) (seek : Rat)
  | fallbackSeekAt (name : String) (seek : Rat)
deriving DecidableEq, Repr

/-- JavaScript `Math.min` on (rational-modelled) numbers. -/
def jsMin (a b : Rat) : Rat := if a ≤ b then a else b

/-- The mutable per-file locals of the processing loop (`thumbnailUrl`,
`duration`, `width`, `height`, `fps`), all initially `undefined`. -/
structure ExtractLocals where
  thumbnailUrl : Option String := none
  duration : Option Rat := none
  width : Option Nat := none
  height : Option Nat := none
  fps : Option Rat := none
deriving DecidableEq, Repr

/-- All locals still `undefined`, as at the top of each iteration. -/
def initLocals : ExtractLocals := {}

/-- The image branch: `getImageDimensions`; on success set width/height,
on rejection the file's processing fails with nothing set. -/
def extractImage (f : FileSpec) : Bool × ExtractLocals × List PEvent :=
  match f.imageDims with
  | some wh =>
      (true, { initLocals with width := some wh.1, height := some wh.2 }, [])
  | none => (false, initLocals, [])

/-- The audio branch: `getMediaDuration` only. -/
def extractAudio (f : FileSpec) : Bool × ExtractLocals × List PEvent :=
  match f.mediaDuration with
  | some d => (true, { initLocals with duration := some d }, [])
  | none => (false, initLocals, [])

/-- The basic fallback for video: `generateVideoThumbnail` (which seeks to
`Math.min(1, video.duration * 0.1)` and yields thumbnail/width/height)
followed by `getMediaDuration`; a rejection of either aborts the file with
whatever the locals hold so far. -/
def fallbackFrom (f : FileSpec) (l : ExtractLocals) (evs : List PEvent) :
    Bool × ExtractLocals × List PEvent :=
  match f.fbThumb with
  | none => (false, l, evs)
  | some twh =>
      let evs2 := evs ++
        [PEvent.fallbackSeekAt f.name (jsMin 1 (f.fbDuration / 10))]
      let l2 := { l with
                  thumbnailUrl := some twh.1,
                  width := some twh.2.1, height := some twh.2.2 }
      match f.mediaDuration with
      | none => (false, l2, evs2)
      | some d => (true, { l2 with duration := some d }, evs2)

/-- The video branch: first the heavy-engine tier — engine load plus
`getVideoInfo`, then `generateThumbnail(file, 1)` with its constant
1-second seek — and, on any failure in that tier, the basic fallback,
starting from whatever the heavy tier already assigned. -/
def extractVideo (f : FileSpec) : Bool × ExtractLocals × List PEvent :=
  match f.engineInfo with
  | none => fallbackFrom f initLocals []
  | some vi =>
      let l1 : ExtractLocals :=
        { thumbnailUrl := none, duration := some vi.duration,
          width := some vi.width, height := some vi.height,
          fps := some vi.fps }
      match f.engineThumb with
      | some t =>
          (true, { l1 with thumbnailUrl := some t },
           [PEvent.engineThumbAt f.name 1])
      | none => fallbackFrom f l1 [PEvent.engineThumbAt f.name 1]

/-- Dispatch on the classified kind. -/
def extractOf (ty : MediaType) (f : FileSpec) :
    Bool × ExtractLocals × List PEvent :=
  match ty with
  | MediaType.image => extractImage f
  | MediaType.video => extractVideo f
  | MediaType.audio => extractAudio f

/-- The object literal pushed onto `processedItems`. -/
def mkProcessed (f : FileSpec) (ty : MediaType) (l : ExtractLocals) :
    DraftMediaItem :=
  { name := f.name, type := ty, file := f.name, url := some f.url,
    thumbnailUrl := l.thumbnailUrl, duration := l.duration,
    width := l.width, height := l.height, fps := l.fps }

/-- `Math.round((completed / total) * 100)` for natural `completed` and
positive natural `total`: `⌊(100·completed)/total + 1/2⌋`. -/
def jsRound100 (completed total : Nat) : Nat :=
  (200 * completed + total) / (2 * total)

/-- The `for` loop of `processMediaFiles`: `total` is the batch length,
`hasCb` whether an `onProgress` callback was supplied, the `Nat` argument
the running `completed` counter.  Returns the accepted items in order and
the event trace. -/
def processLoop (total : Nat) (hasCb : Bool) :
    List FileSpec → Nat → List DraftMediaItem × List PEvent
  | [], _ => ([], [])
  | f :: rest, completed =>
      match getFileType f.contentType with
      | none =>
          let r := processLoop total hasCb rest completed
          (r.1,
           PEvent.toastError ("Unsupported file type: " ++ f.name) :: r.2)
      | some ty =>
          let e := extractOf ty f
          if e.1 then
            let done := completed + 1
            let progEvs :=
              if hasCb then [PEvent.progress (jsRound100 done total)]
              else []
            let r := processLoop total hasCb rest done
            (mkProcessed f ty e.2.1 :: r.1,
             PEvent.createUrl f.url ::
               (e.2.2 ++ (PEvent.yieldControl :: progEvs) ++ r.2))
          else
            let r := processLoop total hasCb rest completed
            (r.1,
             PEvent.createUrl f.url ::
               (e.2.2 ++
                 [PEvent.toastError ("Failed to process " ++ f.name),
                  PEvent.revokeUrl f.url] ++ r.2))

/-- `processMediaFiles` from `media-processing.ts`. -/
def processMediaFiles (files : List FileSpec) (hasCb : Bool) :
    List DraftMediaItem × List PEvent :=
  processLoop files.length hasCb files 0

/-- The per-file outcome: the item a file contributes to the output, or
`none` when it is skipped as unsupported or fails extraction. -/
def fileResult (f : FileSpec) : Option DraftMediaItem :=
  match getFileType f.contentType with
  | none => none
  | some ty =>
      let e := extractOf ty f
      if e.1 then some (mkProcessed f ty e.2.1) else none

/-- How much a file advances the `completed` counter. -/
def processedInc (f : FileSpec) : Nat :=
  if (fileResult f).isSome then 1 else 0

/-- The block of events one file contributes, given the `completed` count
before it. -/
def fileEvents (total completed : Nat) (hasCb : Bool) (f : FileSpec) :
    List PEvent :=
  match getFileType f.contentType with
  | none => [PEvent.toastError ("Unsupported file type: " ++ f.name)]
  | some ty =>
      let e := extractOf ty f
      if e.1 then
        PEvent.createUrl f.url ::
          (e.2.2 ++ (PEvent.yieldControl ::
            (if hasCb then
              [PEvent.progress (jsRound100 (completed + 1) total)]
            else [])))
      else
        PEvent.createUrl f.url ::
          (e.2.2 ++
            [PEvent.toastError ("Failed to process " ++ f.name),
             PEvent.revokeUrl f.url])

/-- The trace of a batch as the concatenation of per-file blocks. -/
def eventsFold (total : Nat) (hasCb : Bool) :
    List FileSpec → Nat → List PEvent
  | [], _ => []
  | f :: rest, completed =>
      fileEvents total completed hasCb f ++
        eventsFold total hasCb rest (completed + processedInc f)

/-- Select a progress report's percentage. -/
def isProgress : PEvent → Option Nat
  | PEvent.progress p => some p
  | _ => none

/-- The percentages handed to `onProgress`, in order. -/
def progressReports (l : List PEvent) : List Nat :=
  l.filterMap isProgress

/-- Recognize the event-loop yield. -/
def isYield : PEvent → Bool
  | PEvent.yieldControl => true
  | _ => false

/-- How many times a trace yields to the host scheduler. -/
def yieldCount (l : List PEvent) : Nat :=
  l.countP isYield

/-- The number of files of a batch that are accepted into the output. -/
def acceptedCount (files : List FileSpec) : Nat :=
  (files.filter (fun f => (fileResult f).isSome)).length

/-- The number of files of a batch that are not skipped as unsupported —
the denominator that the claim's reading of progress reporting
prescribes. -/
def supportedCount (files : List FileSpec) : Nat :=
  (files.filter (fun f => (getFileType f.contentType).isSome)).length

/-- Does a capture event carry the timestamp the code computes —
`1` for the heavy-engine tier, `min 1 (duration / 10)` for the fallback
tier of some file of the batch?  Non-capture events pass trivially. -/
def captureConsistent (files : List FileSpec) (e : PEvent) : Bool :=
  match e with
  | PEvent.engineThumbAt _ s => s == 1
  | PEvent.fallbackSeekAt n s =>
      files.any (fun f => f.name == n && s == jsMin 1 (f.fbDuration / 10))
  | _ => true

/-! ## Concrete fixtures used by witnesses and counterexamples -/

/-- A store item with two revocable handles. -/
def itemA : MediaItem :=
  { id := "a", name := "x", type := MediaType.video,
    url := some "blob:u1", thumbnailUrl := some "blob:t1" }

/-- A store item with one revocable handle. -/
def itemB : MediaItem :=
  { id := "b", name := "y", type := MediaType.image,
    url := some "blob:u2" }

/-- A two-item store with distinct ids and distinct handles. -/
def storeAB : MediaStoreState :=
  { mediaItems := [itemA, itemB], isLoading := false }

/-- A draft with no handles. -/
def draftNew : DraftMediaItem :=
  { name := "new", type := MediaType.audio }

/-- A pre-existing store item. -/
def itemOld : MediaItem :=
  { id := "id-0", name := "old", type := MediaType.image }

/-- A one-item store. -/
def storeOld : MediaStoreState :=
  { mediaItems := [itemOld], isLoading := false }

/-- A plain video draft. -/
def draftVid : DraftMediaItem :=
  { name := "new", type := MediaType.video }

/-- A draft holding a revocable preview handle, as the pipeline produces. -/
def draftLeak : DraftMediaItem :=
  { name := "clip.mp4", type := MediaType.video,
    url := some "blob:preview-1" }

/-- The empty store. -/
def emptyStore : MediaStoreState := { mediaItems := [], isLoading := false }

/-- A valid image file. -/
def photoPng : FileSpec :=
  { name := "photo.png", contentType := "image/png", url := "blob:photo",
    imageDims := some (640, 480) }

/-- An unsupported file. -/
def docXyz : FileSpec :=
  { name := "doc.xyz", contentType := "application/xyz",
    url := "blob:doc" }

/-- A 5-second video for which the whole heavy-engine tier succeeds. -/
def clipInfo : VideoInfo :=
  { duration := 5, width := 1920, height := 1080, fps := 30 }

/-- A 5-second video for which the whole heavy-engine tier succeeds
(metadata `clipInfo`). -/
def clipMp4 : FileSpec :=
  { name := "clip.mp4", contentType := "video/mp4", url := "blob:clip",
    engineInfo := some clipInfo,
    engineThumb := some "data:thumb-clip" }

/-- An image whose decoding rejects: extraction fails. -/
def brokenPng : FileSpec :=
  { name := "broken.png", contentType := "image/png",
    url := "blob:broken" }

/-- A 4-second video for which the heavy engine fails and the fallback
succeeds. -/
def fbClip : FileSpec :=
  { name := "fb.mp4", contentType := "video/mp4", url := "blob:fb",
    fbThumb := some ("data:thumb-fb", 640, 360), fbDuration := 4,
    mediaDuration := some 4 }

/-! # Theorems -/

/-! ## Loader lemmas, C2 and C6 -/

theorem loadFFmpeg_memo (s : LoaderState) (p : Nat)
    (h : s.ffmpegPromise = some p) : loadFFmpeg s = (p, s) := by
  simp [loadFFmpeg, h]

theorem runCalls_memo (cs : List CallKind) (s : LoaderState) (p : Nat)
    (h : s.ffmpegPromise = some p) :
    runCalls cs s = (List.replicate cs.length p, s) := by
  induction cs with
  | nil => simp [runCalls]
  | cons c rest ih =>
      simp [runCalls, loadFFmpeg_memo s p h, ih, List.replicate_succ]

/-- C2: every invocation of the engine loader, direct or via the preload
callback and in any order, observes the load operation created by the
first invocation, and the underlying dynamic import runs at most once per
process lifetime (exactly once as soon as there is any invocation). -/
theorem C2_loader_memoized (calls : List CallKind) :
    (runCalls calls initLoader).1 = List.replicate calls.length 0 ∧
      (runCalls calls initLoader).2.loadCount = min calls.length 1 := by
  cases calls with
  | nil => simp [runCalls, initLoader]
  | cons c rest =>
      have hstep : loadFFmpeg initLoader =
          (0, { ffmpegPromise := some 0, loadCount := 1 }) := by
        simp [loadFFmpeg, initLoader]
      have hrest := runCalls_memo rest
        { ffmpegPromise := some 0, loadCount := 1 } 0 rfl
      constructor
      · simp [runCalls, hstep, hrest, List.replicate_succ]
      · simp [runCalls, hstep, hrest]

/-- C6: `preloadFFmpeg` is speculative and non-binding — it returns to its
caller with the loader state untouched (the load is merely scheduled);
when a load is already in flight or complete, running the scheduled
callback changes nothing (no second dynamic import); the callback drives
the same state transition as a direct call but discards the promise, so no
settlement of the load reaches any caller through it, whereas a direct
awaited call surfaces a failed settlement. -/
theorem C6_preload_speculative (hasWindow hasIdleCb : Bool)
    (s : LoaderState) (env : Nat → Bool) (p : Nat)
    (h : s.ffmpegPromise = some p) :
    (preloadFFmpeg hasWindow hasIdleCb s).2.1 = s ∧
      (runPreloadCallback s).2 = s ∧
      (runPreloadCallback s).2 = (loadFFmpegAwaited env s).2 ∧
      (runPreloadCallback s).1 = () ∧
      (env p = false →
        (loadFFmpegAwaited env s).1 =
          Except.error "ffmpeg load failed") := by
  refine ⟨?_, ?_, ?_, rfl, ?_⟩
  · by_cases hw : hasWindow && hasIdleCb <;> simp [preloadFFmpeg, hw]
  · simp [runPreloadCallback, loadFFmpeg_memo s p h]
  · simp [runPreloadCallback, loadFFmpegAwaited]
  · intro henv
    simp [loadFFmpegAwaited, loadFFmpeg_memo s p h, awaitLoad, henv]

/-- C6 witness: a concrete loader state with a completed load and an
environment in which that load fails. -/
theorem C6_preload_speculative_witness :
    (preloadFFmpeg true true
        { ffmpegPromise := some 0, loadCount := 1 }).2.1 =
      { ffmpegPromise := some 0, loadCount := 1 } ∧
      (runPreloadCallback { ffmpegPromise := some 0, loadCount := 1 }).2 =
        { ffmpegPromise := some 0, loadCount := 1 } ∧
      (runPreloadCallback { ffmpegPromise := some 0, loadCount := 1 }).2 =
        (loadFFmpegAwaited (fun _ => false)
          { ffmpegPromise := some 0, loadCount := 1 }).2 ∧
      (runPreloadCallback { ffmpegPromise := some 0, loadCount := 1 }).1 =
        () ∧
      ((fun _ => false : Nat → Bool) 0 = false →
        (loadFFmpegAwaited (fun _ => false)
            { ffmpegPromise := some 0, loadCount := 1 }).1 =
          Except.error "ffmpeg load failed") :=
  C6_preload_speculative true true
    { ffmpegPromise := some 0, loadCount := 1 } (fun _ => false) 0 rfl

/-! ## Store lemmas, C3, C10, C1 -/

theorem allRevocable_cons (a : MediaItem) (t : List MediaItem) :
    allRevocable (a :: t) = revokeItemUrls a ++ allRevocable t := rfl

theorem mem_allRevocable {items : List MediaItem} {it : MediaItem}
    {u : String} (hit : it ∈ items) (hu : u ∈ revokeItemUrls it) :
    u ∈ allRevocable items := by
  induction items with
  | nil => cases hit
  | cons a t ih =>
      rw [allRevocable_cons, List.mem_append]
      rcases List.mem_cons.mp hit with h | h
      · subst h
        exact Or.inl hu
      · exact Or.inr (ih h)

theorem revokeItemUrls_sublist {items : List MediaItem} {it : MediaItem}
    (hm : it ∈ items) :
    List.Sublist (revokeItemUrls it) (allRevocable items) := by
  induction items with
  | nil => cases hm
  | cons a t ih =>
      rw [allRevocable_cons]
      rcases List.mem_cons.mp hm with h | h
      · subst h
        exact List.sublist_append_left _ _
      · exact (ih h).trans (List.sublist_append_right _ _)

theorem find_id_of_mem (l : List MediaItem) (it : MediaItem)
    (hids : (l.map MediaItem.id).Nodup) (hm : it ∈ l) :
    l.find? (fun m => m.id == it.id) = some it := by
  induction l with
  | nil => cases hm
  | cons a t ih =>
      rw [List.map_cons, List.nodup_cons] at hids
      rcases List.mem_cons.mp hm with h | h
      · subst h
        simp [List.find?]
      · have hne : a.id ≠ it.id := by
          intro he
          apply hids.1
          rw [he]
          exact List.mem_map_of_mem MediaItem.id h
        rw [List.find?_cons_of_neg _ (by simp [hne])]
        exact ih hids.2 h

theorem removeMediaItem_revoked (s : MediaStoreState) (id : String)
    (ok : Bool) :
    (removeMediaItem s id ok).2 =
      match s.mediaItems.find? (fun m => m.id == id) with
      | some it => revokeItemUrls it
      | none => [] := rfl

theorem removeMediaItem_state (s : MediaStoreState) (id : String)
    (ok : Bool) :
    (removeMediaItem s id ok).1.mediaItems =
      s.mediaItems.filter (fun m => !(m.id == id)) := rfl

/-- C3: `addMediaItem` inserts the freshly identified entry immediately
(the optimistic state holds it whatever the persistence outcome); when the
persistence call fails, the entry is removed again and the failure is
re-thrown, so the settled collection is exactly the original one; when it
succeeds the entry stays. -/
theorem C3_add_optimistic_rollback (s : MediaStoreState) (pid : String)
    (draft : DraftMediaItem) (newId : String)
    (hfresh : ∀ it ∈ s.mediaItems, it.id ≠ newId) :
    (addMediaItem s pid draft newId true).optimistic.mediaItems
        = s.mediaItems ++ [mkItem draft newId] ∧
      (addMediaItem s pid draft newId false).optimistic.mediaItems
        = s.mediaItems ++ [mkItem draft newId] ∧
      (addMediaItem s pid draft newId false).failed = true ∧
      (addMediaItem s pid draft newId false).settled.mediaItems
        = s.mediaItems ∧
      (addMediaItem s pid draft newId true).settled.mediaItems
        = s.mediaItems ++ [mkItem draft newId] := by
  have hself : s.mediaItems.filter (fun m => !(m.id == newId))
      = s.mediaItems := by
    apply List.filter_eq_self.mpr
    intro a ha
    simpa using hfresh a ha
  refine ⟨rfl, rfl, rfl, ?_, rfl⟩
  show (s.mediaItems ++ [mkItem draft newId]).filter
      (fun m => !(m.id == (mkItem draft newId).id)) = s.mediaItems
  rw [show (mkItem draft newId).id = newId from rfl, List.filter_append,
    hself]
  simp [mkItem]

/-- C3 witness: a one-item store, a fresh id, both persistence
outcomes. -/
theorem C3_add_optimistic_rollback_witness :
    (addMediaItem storeOld "p1" draftVid "id-1" true).optimistic.mediaItems
        = storeOld.mediaItems ++ [mkItem draftVid "id-1"] ∧
      (addMediaItem storeOld "p1" draftVid "id-1"
          false).optimistic.mediaItems
        = storeOld.mediaItems ++ [mkItem draftVid "id-1"] ∧
      (addMediaItem storeOld "p1" draftVid "id-1" false).failed = true ∧
      (addMediaItem storeOld "p1" draftVid "id-1"
          false).settled.mediaItems
        = storeOld.mediaItems ∧
      (addMediaItem storeOld "p1" draftVid "id-1"
          true).settled.mediaItems
        = storeOld.mediaItems ++ [mkItem draftVid "id-1"] :=
  C3_add_optimistic_rollback storeOld "p1" draftVid "id-1" (by decide)

/-- C10: `cleanupObjectUrls` revokes the `blob:` handles of every held
item while the collection itself is untouched, and during
`loadProjectMedia` the outgoing items remain in the collection (their
handles already released) until the fetch settles. -/
theorem C10_cleanup_frame (s : MediaStoreState) (pid : String)
    (fetched : Option (List MediaItem)) :
    (cleanupObjectUrls s).1 = s ∧
      (s.mediaItems.all (fun it =>
        (revokeItemUrls it).all (fun u =>
          ((cleanupObjectUrls s).2).contains u))) = true ∧
      (loadProjectMedia s pid fetched).duringFetch.mediaItems
        = s.mediaItems ∧
      (loadProjectMedia s pid fetched).duringFetch.isLoading = true ∧
      (loadProjectMedia s pid fetched).revoked
        = allRevocable s.mediaItems := by
  refine ⟨rfl, ?_, ?_, ?_, ?_⟩
  · rw [List.all_eq_true]
    intro it hit
    rw [List.all_eq_true]
    intro u hu
    have hmem : u ∈ (cleanupObjectUrls s).2 := mem_allRevocable hit hu
    simpa [List.contains, List.elem_eq_mem] using hmem
  · cases fetched <;> rfl
  · cases fetched <;> rfl
  · cases fetched <;> rfl

/-- C1 counterexample: the add-rollback path of `addMediaItem` drops the
optimistically inserted item — which holds a revocable `blob:` preview
handle — from the collection while revoking nothing, so a removal path
leaves a handle unreleased. -/
theorem C1_counterexample :
    (addMediaItem emptyStore "p1" draftLeak "id-1"
        false).settled.mediaItems = [] ∧
      revokeItemUrls (mkItem draftLeak "id-1") = ["blob:preview-1"] ∧
      (addMediaItem emptyStore "p1" draftLeak "id-1" false).revoked
        = [] := by
  refine ⟨by decide, by decide, by decide⟩

/-- C1 (amended): on the removal paths the store itself performs —
`removeMediaItem`, `loadProjectMedia` replacement, `clearProjectMedia`,
`clearAllMedia` — every revocable handle of a departing item is released
exactly once (the release list is precisely the departing item's handles,
free of duplicates; the bulk release list is all held handles, free of
duplicates; a repeated removal of the same id releases nothing); the
add-rollback path, by contrast, drops its item without releasing any
handle. -/
theorem C1_release_exactly_once (s : MediaStoreState) (pid : String)
    (it : MediaItem) (draft : DraftMediaItem) (newId : String)
    (fetched : Option (List MediaItem))
    (hids : (s.mediaItems.map MediaItem.id).Nodup)
    (hnu : (allRevocable s.mediaItems).Nodup)
    (hm : it ∈ s.mediaItems) :
    (removeMediaItem s it.id true).2 = revokeItemUrls it ∧
      ((removeMediaItem s it.id true).2).Nodup ∧
      it ∉ (removeMediaItem s it.id true).1.mediaItems ∧
      (removeMediaItem (removeMediaItem s it.id true).1 it.id true).2
        = [] ∧
      (clearAllMedia s).2 = allRevocable s.mediaItems ∧
      (clearAllMedia s).1.mediaItems = [] ∧
      (clearProjectMedia s pid true).2 = allRevocable s.mediaItems ∧
      (clearProjectMedia s pid true).1.mediaItems = [] ∧
      (loadProjectMedia s pid fetched).revoked
        = allRevocable s.mediaItems ∧
      ((clearAllMedia s).2).Nodup ∧
      (addMediaItem s pid draft newId false).revoked = [] := by
  have hfind := find_id_of_mem s.mediaItems it hids hm
  have hrel : (removeMediaItem s it.id true).2 = revokeItemUrls it := by
    rw [removeMediaItem_revoked, hfind]
  refine ⟨hrel, ?_, ?_, ?_, rfl, rfl, rfl, rfl, ?_, ?_, rfl⟩
  · rw [hrel]
    exact hnu.sublist (revokeItemUrls_sublist hm)
  · intro hcontra
    rw [removeMediaItem_state] at hcontra
    have h2 := (List.mem_filter.mp hcontra).2
    simp at h2
  · rw [removeMediaItem_revoked, removeMediaItem_state]
    have hnone : ((s.mediaItems.filter
        (fun m => !(m.id == it.id))).find?
          (fun m => m.id == it.id)) = none := by
      rw [List.find?_eq_none]
      intro x hx
      have h2 := (List.mem_filter.mp hx).2
      simpa using h2
    rw [hnone]
  · cases fetched <;> rfl
  · exact hnu

/-- C1 witness: a two-item store with distinct ids and distinct `blob:`
handles; the first item is removed, a fresh draft is rolled back. -/
theorem C1_release_exactly_once_witness :
    (removeMediaItem storeAB itemA.id true).2 = revokeItemUrls itemA ∧
      ((removeMediaItem storeAB itemA.id true).2).Nodup ∧
      itemA ∉ (removeMediaItem storeAB itemA.id true).1.mediaItems ∧
      (removeMediaItem (removeMediaItem storeAB itemA.id true).1
        itemA.id true).2 = [] ∧
      (clearAllMedia storeAB).2 = allRevocable storeAB.mediaItems ∧
      (clearAllMedia storeAB).1.mediaItems = [] ∧
      (clearProjectMedia storeAB "p1" true).2
        = allRevocable storeAB.mediaItems ∧
      (clearProjectMedia storeAB "p1" true).1.mediaItems = [] ∧
      (loadProjectMedia storeAB "p1" none).revoked
        = allRevocable storeAB.mediaItems ∧
      ((clearAllMedia storeAB).2).Nodup ∧
      (addMediaItem storeAB "p1" draftNew "c" false).revoked = [] :=
  C1_release_exactly_once storeAB "p1" itemA draftNew "c" none
    (by decide) (by decide) (by decide)

/-! ## Pipeline lemmas, C4, C5, C7, C8, C9 -/

theorem processLoop_items (total : Nat) (hasCb : Bool)
    (files : List FileSpec) : ∀ c,
    (processLoop total hasCb files c).1 = files.filterMap fileResult := by
  induction files with
  | nil => intro c; rfl
  | cons f rest ih =>
      intro c
      cases hft : getFileType f.contentType with
      | none => simp [processLoop, hft, fileResult, ih]
      | some ty =>
          cases hok : (extractOf ty f).1 with
          | true => simp [processLoop, hft, fileResult, hok, ih]
          | false => simp [processLoop, hft, fileResult, hok, ih]

theorem processLoop_events (total : Nat) (hasCb : Bool)
    (files : List FileSpec) : ∀ c,
    (processLoop total hasCb files c).2 = eventsFold total hasCb files c := by
  induction files with
  | nil => intro c; rfl
  | cons f rest ih =>
      intro c
      cases hft : getFileType f.contentType with
      | none =>
          simp [processLoop, eventsFold, fileEvents, processedInc,
            fileResult, hft, ih]
      | some ty =>
          cases hok : (extractOf ty f).1 with
          | true =>
              simp [processLoop, eventsFold, fileEvents, processedInc,
                fileResult, hft, hok, ih, List.append_assoc]
          | false =>
              simp [processLoop, eventsFold, fileEvents, processedInc,
                fileResult, hft, hok, ih, List.append_assoc]

theorem extract_events_shape (ty : MediaType) (f : FileSpec) :
    (extractOf ty f).2.2 = [] ∨
      (extractOf ty f).2.2 = [PEvent.engineThumbAt f.name 1] ∨
      (extractOf ty f).2.2 = [PEvent.engineThumbAt f.name 1,
        PEvent.fallbackSeekAt f.name (jsMin 1 (f.fbDuration / 10))] ∨
      (extractOf ty f).2.2
        = [PEvent.fallbackSeekAt f.name (jsMin 1 (f.fbDuration / 10))] := by
  cases ty with
  | image =>
      rcases hid : f.imageDims with _ | wh <;>
        simp [extractOf, extractImage, hid]
  | audio =>
      rcases hmd : f.mediaDuration with _ | d <;>
        simp [extractOf, extractAudio, hmd]
  | video =>
      rcases hei : f.engineInfo with _ | vi <;>
        rcases het : f.engineThumb with _ | t <;>
          rcases hfb : f.fbThumb with _ | tu <;>
            rcases hmd : f.mediaDuration with _ | d <;>
              simp [extractOf, extractVideo, fallbackFrom, hei, het, hfb,
                hmd]

theorem mem_eventsFold_of_mem (total : Nat) (hasCb : Bool)
    {files : List FileSpec} {f : FileSpec} (hf : f ∈ files) {e : PEvent}
    (he : ∀ c, e ∈ fileEvents total c hasCb f) :
    ∀ c, e ∈ eventsFold total hasCb files c := by
  induction files with
  | nil => cases hf
  | cons a rest ih =>
      intro c
      simp only [eventsFold]
      rcases List.mem_cons.mp hf with h | h
      · subst h
        exact List.mem_append_left _ (he c)
      · exact List.mem_append_right _ (ih h _)

theorem mem_eventsFold_elim (total : Nat) (hasCb : Bool)
    {files : List FileSpec} {e : PEvent} :
    ∀ {c}, e ∈ eventsFold total hasCb files c →
      ∃ f ∈ files, ∃ c2, e ∈ fileEvents total c2 hasCb f := by
  induction files with
  | nil =>
      intro c h
      simp [eventsFold] at h
  | cons a rest ih =>
      intro c h
      simp only [eventsFold] at h
      rcases List.mem_append.mp h with h1 | h2
      · exact ⟨a, List.mem_cons_self a rest, c, h1⟩
      · obtain ⟨f, hf, c2, he⟩ := ih h2
        exact ⟨f, List.mem_cons_of_mem a hf, c2, he⟩

theorem captureConsistent_extract {files : List FileSpec} {f : FileSpec}
    (hf : f ∈ files) (ty : MediaType) {e : PEvent}
    (he : e ∈ (extractOf ty f).2.2) :
    captureConsistent files e = true := by
  have hen : captureConsistent files (PEvent.engineThumbAt f.name 1)
      = true := by
    simp [captureConsistent]
  have hfb : captureConsistent files
      (PEvent.fallbackSeekAt f.name (jsMin 1 (f.fbDuration / 10)))
        = true := by
    simp only [captureConsistent, List.any_eq_true]
    refine ⟨f, hf, ?_⟩
    simp
  rcases extract_events_shape ty f with hsh | hsh | hsh | hsh <;>
    rw [hsh] at he <;> simp at he
  · subst he
    exact hen
  · rcases he with rfl | rfl
    · exact hen
    · exact hfb
  · subst he
    exact hfb

theorem captureConsistent_fileEvents {files : List FileSpec}
    {f : FileSpec} (hf : f ∈ files) {total c : Nat} {hasCb : Bool}
    {e : PEvent} (he : e ∈ fileEvents total c hasCb f) :
    captureConsistent files e = true := by
  simp only [fileEvents] at he
  rcases hft : getFileType f.contentType with _ | ty <;>
    simp only [hft] at he
  · simp at he
    subst he
    rfl
  · by_cases hok : (extractOf ty f).1 = true
    · rw [if_pos hok] at he
      rcases List.mem_cons.mp he with rfl | he2
      · rfl
      rcases List.mem_append.mp he2 with hex | hrest
      · exact captureConsistent_extract hf ty hex
      rcases List.mem_cons.mp hrest with rfl | hprog
      · rfl
      cases hasCb
      · simp at hprog
      · simp at hprog
        subst hprog
        rfl
    · rw [if_neg hok] at he
      rcases List.mem_cons.mp he with rfl | he2
      · rfl
      rcases List.mem_append.mp he2 with hex | hrest
      · exact captureConsistent_extract hf ty hex
      simp at hrest
      rcases hrest with rfl | rfl <;> rfl

theorem engineThumb_mem_extract (f : FileSpec) (vi : VideoInfo)
    (hei : f.engineInfo = some vi) :
    PEvent.engineThumbAt f.name 1 ∈ (extractOf MediaType.video f).2.2 := by
  rcases het : f.engineThumb with _ | t <;>
    rcases hfb : f.fbThumb with _ | tu <;>
      rcases hmd : f.mediaDuration with _ | d <;>
        simp [extractOf, extractVideo, fallbackFrom, hei, het, hfb, hmd]

theorem engineThumb_mem_fileEvents (total c : Nat) (hasCb : Bool)
    (f : FileSpec) (vi : VideoInfo)
    (hft : getFileType f.contentType = some MediaType.video)
    (hei : f.engineInfo = some vi) :
    PEvent.engineThumbAt f.name 1 ∈ fileEvents total c hasCb f := by
  have hmem := engineThumb_mem_extract f vi hei
  simp only [fileEvents, hft]
  by_cases hok : (extractOf MediaType.video f).1 = true
  · rw [if_pos hok]
    exact List.mem_cons_of_mem _ (List.mem_append_left _ hmem)
  · rw [if_neg hok]
    exact List.mem_cons_of_mem _ (List.mem_append_left _ hmem)

/-- C4: the batch never aborts — the output is exactly the best-effort
subset of accepted files in input order (`filterMap` of the per-file
outcome); an unsupported file contributes nothing to the output; and a
supported file whose extraction fails has its already-allocated preview
handle revoked while later files are still processed. -/
theorem C4_best_effort (files : List FileSpec) (hasCb : Bool)
    (g u : FileSpec) (hg : g ∈ files)
    (hgsupp : (getFileType g.contentType).isSome = true)
    (hgfail : fileResult g = none)
    (huns : getFileType u.contentType = none) :
    (processMediaFiles files hasCb).1 = files.filterMap fileResult ∧
      fileResult u = none ∧
      PEvent.revokeUrl g.url ∈ (processMediaFiles files hasCb).2 := by
  refine ⟨processLoop_items files.length hasCb files 0, ?_, ?_⟩
  · simp [fileResult, huns]
  · obtain ⟨ty, hty⟩ := Option.isSome_iff_exists.mp hgsupp
    have hok : (extractOf ty g).1 = false := by
      by_contra hcon
      rw [Bool.not_eq_false] at hcon
      rw [fileResult, hty] at hgfail
      simp [hcon] at hgfail
    have hblock : ∀ c, PEvent.revokeUrl g.url ∈
        fileEvents files.length c hasCb g := by
      intro c
      simp only [fileEvents, hty]
      rw [if_neg (by simp [hok])]
      refine List.mem_cons_of_mem _ (List.mem_append_right _ ?_)
      simp
    show PEvent.revokeUrl g.url ∈
      (processLoop files.length hasCb files 0).2
    rw [processLoop_events]
    exact mem_eventsFold_of_mem files.length hasCb hg hblock 0

/-- C4 witness: a batch with a valid image, a failing image, an
unsupported file and a fallback-processed video. -/
theorem C4_best_effort_witness :
    (processMediaFiles [photoPng, brokenPng, docXyz, fbClip] true).1
        = [photoPng, brokenPng, docXyz, fbClip].filterMap fileResult ∧
      fileResult docXyz = none ∧
      PEvent.revokeUrl brokenPng.url ∈
        (processMediaFiles [photoPng, brokenPng, docXyz, fbClip]
          true).2 :=
  C4_best_effort [photoPng, brokenPng, docXyz, fbClip] true brokenPng
    docXyz (by decide) (by decide) (by decide) (by decide)

/-- C7 counterexample: for a 5-second video processed on the heavy-engine
tier, the capture timestamp handed to `generateThumbnail` is the constant
`1`, whereas `min 1 (duration / 10)` would be `1/2`. -/
theorem C7_counterexample :
    PEvent.engineThumbAt "clip.mp4" 1 ∈
        (processMediaFiles [clipMp4] false).2 ∧
      clipMp4.engineInfo = some clipInfo ∧
      clipInfo.duration = 5 ∧
      jsMin 1 (clipInfo.duration / 10) ≠ 1 := by
  refine ⟨by decide, rfl, rfl, by norm_num [jsMin, clipInfo]⟩

/-- C7 (amended): every fallback-tier capture seeks to
`min 1 (duration / 10)` of its file, but every heavy-engine capture seeks
to the constant `1` second — in particular a video reaching the heavy
tier records a capture at timestamp `1`, whatever its duration. -/
theorem C7_capture_timestamps (files : List FileSpec) (hasCb : Bool)
    (f : FileSpec) (vi : VideoInfo) (hf : f ∈ files)
    (hft : getFileType f.contentType = some MediaType.video)
    (hei : f.engineInfo = some vi) :
    ((processMediaFiles files hasCb).2.all (captureConsistent files))
        = true ∧
      PEvent.engineThumbAt f.name 1 ∈
        (processMediaFiles files hasCb).2 := by
  constructor
  · rw [List.all_eq_true]
    intro e hemem
    have hemem2 : e ∈ eventsFold files.length hasCb files 0 := by
      rw [show (processMediaFiles files hasCb).2
          = (processLoop files.length hasCb files 0).2 from rfl,
        processLoop_events] at hemem
      exact hemem
    obtain ⟨f2, hf2, c2, he2⟩ :=
      mem_eventsFold_elim files.length hasCb hemem2
    exact captureConsistent_fileEvents hf2 he2
  · show PEvent.engineThumbAt f.name 1 ∈
      (processLoop files.length hasCb files 0).2
    rw [processLoop_events]
    exact mem_eventsFold_of_mem files.length hasCb hf
      (fun c => engineThumb_mem_fileEvents files.length c hasCb f vi hft
        hei) 0

/-- C7 witness: the 5-second heavy-tier video inside a mixed batch. -/
theorem C7_capture_timestamps_witness :
    ((processMediaFiles [photoPng, clipMp4] true).2.all
        (captureConsistent [photoPng, clipMp4])) = true ∧
      PEvent.engineThumbAt clipMp4.name 1 ∈
        (processMediaFiles [photoPng, clipMp4] true).2 :=
  C7_capture_timestamps [photoPng, clipMp4] true clipMp4 clipInfo
    (by decide) (by decide) rfl

theorem progressReports_extract (ty : MediaType) (f : FileSpec) :
    progressReports (extractOf ty f).2.2 = [] := by
  rcases extract_events_shape ty f with hsh | hsh | hsh | hsh <;>
    rw [progressReports, hsh] <;> rfl

theorem progressReports_fileEvents (total c : Nat) (f : FileSpec) :
    progressReports (fileEvents total c true f)
      = if (fileResult f).isSome then [jsRound100 (c + 1) total]
        else [] := by
  have hex : ∀ ty, List.filterMap isProgress (extractOf ty f).2.2 = [] :=
    fun ty => progressReports_extract ty f
  rcases hft : getFileType f.contentType with _ | ty <;>
    simp only [progressReports, fileEvents, fileResult, hft]
  · rfl
  · cases hok : (extractOf ty f).1 <;>
      simp [hok, List.filterMap_cons, List.filterMap_append, hex ty,
        isProgress]

theorem acceptedCount_cons (f : FileSpec) (rest : List FileSpec) :
    acceptedCount (f :: rest)
      = processedInc f + acceptedCount rest := by
  simp only [acceptedCount, processedInc, List.filter_cons]
  cases hsome : (fileResult f).isSome <;> simp [Nat.add_comm]

theorem progressReports_eventsFold (total : Nat)
    (files : List FileSpec) : ∀ c,
    progressReports (eventsFold total true files c)
      = (List.range (acceptedCount files)).map
          (fun k => jsRound100 (c + (k + 1)) total) := by
  induction files with
  | nil => intro c; rfl
  | cons f rest ih =>
      intro c
      simp only [eventsFold, progressReports, List.filterMap_append]
      have h1 := progressReports_fileEvents total c f
      simp only [progressReports] at h1
      rw [h1]
      have h2 := ih (c + processedInc f)
      simp only [progressReports] at h2
      rw [h2, acceptedCount_cons]
      cases hsome : (fileResult f).isSome
      · simp [processedInc, hsome]
      · simp only [processedInc, hsome, if_pos]
        rw [Nat.add_comm 1 (acceptedCount rest), List.range_succ_eq_map,
          List.map_cons, List.map_map]
        simp only [List.singleton_append]
        congr 1
        apply List.map_congr_left
        intro k _
        simp only [Function.comp]
        congr 1
        omega

theorem jsRound100_mono {a b : Nat} (t : Nat) (h : a ≤ b) :
    jsRound100 a t ≤ jsRound100 b t :=
  Nat.div_le_div_right (by omega)

theorem chain_le_of_map_range (n t c : Nat) :
    List.Chain' (· ≤ ·)
      ((List.range n).map (fun k => jsRound100 (c + (k + 1)) t)) := by
  apply List.Pairwise.chain'
  rw [List.pairwise_map]
  exact (List.pairwise_lt_range n).imp
    (fun hab => jsRound100_mono t (by omega))

/-- C5 (amended): with a progress callback supplied, an integer percentage
is reported exactly once after each processed file — the k-th report being
`round(100·k / total)` where `total` is the full batch length, skipped
files included (they are missing from the reported count, the numerator,
not from the denominator) — and the reported sequence is non-decreasing;
since the numerator never counts skipped files, a batch containing
unsupported files need not see 100 reported. -/
theorem C5_progress_reporting (files : List FileSpec) :
    progressReports (processMediaFiles files true).2
        = (List.range (acceptedCount files)).map
            (fun k => jsRound100 (k + 1) files.length) ∧
      List.Chain' (· ≤ ·)
        (progressReports (processMediaFiles files true).2) := by
  have hev : (processMediaFiles files true).2
      = eventsFold files.length true files 0 :=
    processLoop_events files.length true files 0
  have heq := progressReports_eventsFold files.length files 0
  simp only [Nat.zero_add] at heq
  rw [hev, heq]
  refine ⟨rfl, ?_⟩
  have := chain_le_of_map_range (acceptedCount files) files.length 0
  simpa using this

/-- C5 counterexample: in the batch `[photo.png, doc.xyz]` the single
report is `round(100·1/2) = 50`, while the claim's denominator — the
number of non-skipped files, here 1 — would make it `100`: skipped files
do count toward the denominator. -/
theorem C5_counterexample :
    progressReports (processMediaFiles [photoPng, docXyz] true).2
        = [50] ∧
      supportedCount [photoPng, docXyz] = 1 ∧
      jsRound100 1 (supportedCount [photoPng, docXyz]) = 100 ∧
      (50 : Nat) ≠ 100 := by
  refine ⟨by decide, by decide, by decide, by decide⟩

theorem yieldCount_extract (ty : MediaType) (f : FileSpec) :
    List.countP isYield (extractOf ty f).2.2 = 0 := by
  rcases extract_events_shape ty f with hsh | hsh | hsh | hsh <;>
    rw [hsh] <;> rfl

theorem yieldCount_fileEvents (total c : Nat) (hasCb : Bool)
    (f : FileSpec) :
    yieldCount (fileEvents total c hasCb f) = processedInc f := by
  rcases hft : getFileType f.contentType with _ | ty <;>
    simp only [yieldCount, fileEvents, processedInc, fileResult, hft]
  · rfl
  · cases hok : (extractOf ty f).1 <;>
      cases hasCb <;>
        simp [hok, List.countP_cons, List.countP_append,
          yieldCount_extract, isYield]

theorem yieldCount_eventsFold (total : Nat) (hasCb : Bool)
    (files : List FileSpec) : ∀ c,
    yieldCount (eventsFold total hasCb files c) = acceptedCount files := by
  induction files with
  | nil => intro c; rfl
  | cons f rest ih =>
      intro c
      simp only [eventsFold, yieldCount, List.countP_append]
      have h1 := yieldCount_fileEvents total c hasCb f
      simp only [yieldCount] at h1
      have h2 := ih (c + processedInc f)
      simp only [yieldCount] at h2
      rw [h1, h2, acceptedCount_cons]

/-- C8 (amended): the event-loop yield happens exactly once after each
successfully processed file — the number of yields of a batch equals the
number of accepted files — so skipped (unsupported) files and files whose
extraction fails contribute no yield. -/
theorem C8_yield_per_accepted_file (files : List FileSpec)
    (hasCb : Bool) :
    yieldCount (processMediaFiles files hasCb).2
      = acceptedCount files := by
  show yieldCount (processLoop files.length hasCb files 0).2 = _
  rw [processLoop_events]
  exact yieldCount_eventsFold files.length hasCb files 0

/-- C8 counterexample: a one-file batch whose file is skipped as
unsupported yields zero times, and a one-file batch whose file fails
extraction also yields zero times — not once per file as claimed. -/
theorem C8_counterexample :
    yieldCount (processMediaFiles [docXyz] true).2 = 0 ∧
      ([docXyz] : List FileSpec).length = 1 ∧
      yieldCount (processMediaFiles [brokenPng] true).2 = 0 ∧
      ([brokenPng] : List FileSpec).length = 1 ∧
      (0 : Nat) ≠ 1 := by
  refine ⟨by decide, by decide, by decide, by decide, by decide⟩

theorem progressReports_eventsFold_unsupported (total : Nat)
    (hasCb : Bool) (files : List FileSpec)
    (h : ∀ f ∈ files, getFileType f.contentType = none) :
    ∀ c, progressReports (eventsFold total hasCb files c) = [] := by
  induction files with
  | nil => intro c; rfl
  | cons f rest ih =>
      intro c
      have hf := h f (List.mem_cons_self f rest)
      simp only [eventsFold, progressReports, List.filterMap_append]
      have hrest := ih (fun g hg => h g (List.mem_cons_of_mem f hg))
        (c + processedInc f)
      simp only [progressReports] at hrest
      rw [hrest]
      simp [fileEvents, hf, isProgress]

/-- C9: a batch that is empty or consists only of unsupported files
resolves to the empty output and never invokes the progress callback (so
the `completed / total` expression guarded by it is never evaluated). -/
theorem C9_all_unsupported (files : List FileSpec) (hasCb : Bool)
    (h : ∀ f ∈ files, getFileType f.contentType = none) :
    (processMediaFiles files hasCb).1 = [] ∧
      progressReports (processMediaFiles files hasCb).2 = [] := by
  constructor
  · show (processLoop files.length hasCb files 0).1 = []
    rw [processLoop_items]
    rw [List.filterMap_eq_nil_iff]
    intro a ha
    simp [fileResult, h a ha]
  · show progressReports (processLoop files.length hasCb files 0).2 = []
    rw [processLoop_events]
    exact progressReports_eventsFold_unsupported files.length hasCb files
      h 0

/-- C9 witness: the all-unsupported singleton batch. -/
theorem C9_all_unsupported_witness :
    (processMediaFiles [docXyz] true).1 = [] ∧
      progressReports (processMediaFiles [docXyz] true).2 = [] :=
  C9_all_unsupported [docXyz] true (by decide)
